import Mathlib

/-!
Shallow embedding of `src/parser_zoomagia.py` (class `ZoomagiaParser`).

Python strings are modelled as `List Char` so that every operation the
scraper performs (`str.strip`, `str.replace`, `str.split`, `str.startswith`,
substring membership of a single character) is an executable Lean function.
A parsed BeautifulSoup document is modelled at the level of the selector
queries the code performs: each field of `Doc` (product page) and
`ListingDoc` (sale-listing page) holds the result of one fixed selector
query, and an element carries its text-node strings (in document order)
and its attribute list.
-/

namespace Zoomagia

/-- Python strings, modelled as character lists. -/
abbrev Str := List Char

/-- Coerce a Lean string literal into the character-list model. -/
def str (s : String) : Str := s.data

/-- Python `str.strip()`: remove whitespace from both ends. -/
def trim (s : Str) : Str :=
  ((s.dropWhile Char.isWhitespace).reverse.dropWhile Char.isWhitespace).reverse

/-- Fuel-driven scan underlying `replaceAll`; the fuel is an upper bound on
the number of scan steps (one character or one pattern occurrence is
consumed per step), so `fuel = s.length` never runs out for a non-empty
pattern. -/
def replaceAllFuel (pat rep : Str) : Nat → Str → Str
  | _, [] => []
  | 0, s => s
  | fuel + 1, c :: cs =>
    if pat.isPrefixOf (c :: cs) then
      rep ++ replaceAllFuel pat rep fuel ((c :: cs).drop pat.length)
    else
      c :: replaceAllFuel pat rep fuel cs

/-- Python `s.replace(pat, rep)`: replace every non-overlapping occurrence
of `pat`, scanning left to right.  For an empty pattern with an empty
replacement Python returns `s` unchanged, which this definition matches
(the code only ever replaces by the empty string). -/
def replaceAll (s pat rep : Str) : Str :=
  if pat = [] then s else replaceAllFuel pat rep s.length s

/-- Python `s.split(sep)` for a one-character separator (the code only
splits on the one-character separators `,` and the en dash). -/
def splitChar (sep : Char) : Str → List Str
  | [] => [[]]
  | c :: cs =>
    if c = sep then
      [] :: splitChar sep cs
    else
      match splitChar sep cs with
      | [] => [[c]]
      | h :: t => (c :: h) :: t

/-- An HTML element as the scraper observes it: the string contents of its
text nodes in document order, and its attributes. -/
structure Elem where
  strings : List Str
  attrs : List (String × Str)
deriving DecidableEq

/-- BeautifulSoup `.text`: concatenation of all text-node strings. -/
def Elem.text (e : Elem) : Str := e.strings.flatten

/-- BeautifulSoup `elem.get(key)`: `None` when the attribute is absent. -/
def Elem.attr (e : Elem) (k : String) : Option Str :=
  (e.attrs.find? (fun p => p.1 == k)).map (fun p => p.2)

/-- BeautifulSoup `get_text(strip=True)`: each text-node string is
stripped, whitespace-only strings are dropped, and the rest are joined
with the empty separator. -/
def Elem.getTextStripped (e : Elem) : Str :=
  ((e.strings.map trim).filter (fun s => !s.isEmpty)).flatten

/-- BeautifulSoup `get_text(strip=True, separator=sep)`: stripped non-empty
text-node strings joined with `sep`. -/
def Elem.getTextSep (e : Elem) (sep : Str) : Str :=
  List.intercalate sep ((e.strings.map trim).filter (fun s => !s.isEmpty))

/-- The pricing block `.packing-price-item` together with the two
sub-queries `_get_price` performs inside it. -/
structure PriceBlock where
  strings : List Str
  priceDel : Option Elem
  discountBadge : Option Elem
deriving DecidableEq

/-- Text of the whole pricing block (`price_block.text`). -/
def PriceBlock.text (pb : PriceBlock) : Str := pb.strings.flatten

/-- A node inside a tab container, tagged with whether it is one of the
`script, style` descendants that `_get_tab_content` decomposes. -/
structure TabNode where
  isScriptStyle : Bool
  strings : List Str
deriving DecidableEq

/-- A tab-content container (`#product-des` etc.). -/
structure Tab where
  nodes : List TabNode
deriving DecidableEq

/-- A parsed product page, at the granularity of the selector queries in
`ZoomagiaParser`: each field is the result of one fixed query. -/
structure Doc where
  title : Option Elem
  h1 : Option Elem
  metaKeywords : Option Elem
  brandLink : Option Elem
  priceBlock : Option PriceBlock
  breadcrumbs : List Elem
  mainImage : Option Elem
  thumbImgs : List Elem
  packingItems : List Elem
  tabs : List (String × Tab)
  commentItems : List Elem
deriving DecidableEq

/-- The en dash the code splits product titles on (`'–'`). -/
def endash : Char := '–'

/-- Embedding of `_get_name`: prefer the page title, dropping everything
after an en dash; when the title is missing or has no en dash, fall back
to the first `h1`; else the empty string. -/
def get_name (d : Doc) : Str :=
  let fallback : Str :=
    match d.h1 with
    | some h1 => trim h1.text
    | none => []
  match d.title with
  | some t =>
    let title_text := trim t.text
    if title_text.contains endash then
      trim ((splitChar endash title_text).headD [])
    else
      fallback
  | none => fallback

/-- Embedding of `_get_manufacturer`: last non-empty comma-separated token
of the `keywords` meta content, else the `.brand a` link text, else empty. -/
def get_manufacturer (d : Doc) : Str :=
  let brandFallback : Str :=
    match d.brandLink with
    | some b => trim b.text
    | none => []
  match d.metaKeywords with
  | some meta =>
    match meta.attr "content" with
    | some content =>
      if content = [] then brandFallback
      else
        let parts := ((splitChar ',' (trim content)).map trim).filter (fun p => !p.isEmpty)
        match parts.getLast? with
        | some p => p
        | none => brandFallback
    | none => brandFallback
  | none => brandFallback

/-- The ruble sign removed by `_get_price` (`'₽'`). -/
def ruble : Str := str "₽"

/-- Prices are a record of three raw strings, as in `_get_price`. -/
structure Price where
  old_price : Str
  current_price : Str
  discount : Str
deriving DecidableEq

/-- Embedding of `_get_price`: all three fields default to the empty
string; inside an existing `.packing-price-item` block, `old_price` is the
stripped text of `.price-del` when present, `current_price` is (only when
`.price-del` is present) the stripped block text with the old-price string
and every ruble sign removed and stripped again, and `discount` is the
stripped text of `.price-customer-discount-badge` when present. -/
def get_price (d : Doc) : Price :=
  match d.priceBlock with
  | none => ⟨[], [], []⟩
  | some pb =>
    let old_price : Str :=
      match pb.priceDel with
      | some op => trim op.text
      | none => []
    let current_price : Str :=
      match pb.priceDel with
      | some op =>
        let price_text := trim pb.text
        trim (replaceAll (replaceAll price_text (trim op.text) []) ruble [])
      | none => []
    let discount : Str :=
      match pb.discountBadge with
      | some db => trim db.text
      | none => []
    ⟨old_price, current_price, discount⟩

/-- Embedding of `_get_category`: stripped text of the second-to-last
breadcrumb item when at least two exist, else empty. -/
def get_category (d : Doc) : Str :=
  if d.breadcrumbs.length ≥ 2 then
    match d.breadcrumbs.get? (d.breadcrumbs.length - 2) with
    | some e =>
      let category := trim e.text
      if !category.isEmpty then category else []
    | none => []
  else []

/-- The initial `images` list of `_get_images` before the thumbnail loop:
the big image's `src` alone, when the element is present and its `src` is
present and non-empty (Python truthiness of `main_image.get('src')`). -/
def mainImageList (d : Doc) : List Str :=
  match d.mainImage with
  | some img =>
    match img.attr "src" with
    | some src => if src ≠ [] then [src] else []
    | none => []
  | none => []

/-- The body of the thumbnail loop of `_get_images`: append a thumbnail
`src` when it is present, non-empty and not already collected. -/
def imgStep (acc : List Str) (img : Elem) : List Str :=
  match img.attr "src" with
  | some src => if src ≠ [] ∧ src ∉ acc then acc ++ [src] else acc
  | none => acc

/-- Embedding of `_get_images`: the big image's `src` first, then each
thumbnail `src` in document order when non-empty and not already
collected. -/
def get_images (d : Doc) : List Str :=
  d.thumbImgs.foldl imgStep (mainImageList d)

/-- The body of the `_get_weight` loop: append the stripped item text when
it is non-empty. -/
def weightStep (acc : List Str) (e : Elem) : List Str :=
  let w := trim e.text
  if !w.isEmpty then acc ++ [w] else acc

/-- Embedding of `_get_weight`: stripped text of each
`.product-show-packing` item, empty strings dropped. -/
def get_weight (d : Doc) : List Str :=
  d.packingItems.foldl weightStep []

/-- Embedding of `_get_tab_content`: look the container up by its selector
id; when present, decompose every `script`/`style` descendant and join the
remaining stripped text-node strings with newlines; else empty. -/
def get_tab_content (d : Doc) (tab_id : String) : Str :=
  match (d.tabs.find? (fun p => p.1 == tab_id)).map (fun p => p.2) with
  | some tab =>
    let kept := tab.nodes.filter (fun n => !n.isScriptStyle)
    List.intercalate (str "\n")
      (((kept.map TabNode.strings).flatten.map trim).filter (fun s => !s.isEmpty))
  | none => []

/-- A review record, holding only the raw text (`_get_reviews`). -/
structure Review where
  text : Str
deriving DecidableEq

/-- Embedding of `_get_reviews`: one record per `.product-comments-block li`
item, holding the item's `get_text(strip=True)`. -/
def get_reviews (d : Doc) : List Review :=
  d.commentItems.foldl (fun acc e => acc ++ [⟨e.getTextStripped⟩]) []

/-- The raw product dictionary built in `parse_product` before the
empty-string normalisation loop runs.  `url` is the argument of
`parse_product`; `parsed_date` is the `datetime.now().isoformat()` stamp,
passed in explicitly to keep the embedding pure. -/
structure RawRecord where
  name : Str
  manufacturer : Str
  price : Price
  category : Str
  images : List Str
  weight : List Str
  description : Str
  composition : Str
  analysis : Str
  feeding_norm : Str
  reviews : List Review
  url : Str
  parsed_date : Str
deriving DecidableEq

/-- The product record after the normalisation loop: every `str`-typed
entry of the dictionary became optional, every other entry kept its type. -/
structure Record where
  name : Option Str
  manufacturer : Option Str
  price : Price
  category : Option Str
  images : List Str
  weight : List Str
  description : Option Str
  composition : Option Str
  analysis : Option Str
  feeding_norm : Option Str
  reviews : List Review
  url : Option Str
  parsed_date : Option Str
deriving DecidableEq

/-- One step of the normalisation loop on a `str` value: a value whose
`strip()` is empty becomes `None`, every other value is kept unchanged. -/
def normStr (s : Str) : Option Str :=
  if trim s = [] then none else some s

/-- The loop `for key, value in product_data.items(): ...` of
`parse_product`: it tests `isinstance(value, str)`, so it rewrites exactly
the string-valued entries and leaves the price record and the three lists
untouched. -/
def normalize (r : RawRecord) : Record :=
  { name := normStr r.name
    manufacturer := normStr r.manufacturer
    price := r.price
    category := normStr r.category
    images := r.images
    weight := r.weight
    description := normStr r.description
    composition := normStr r.composition
    analysis := normStr r.analysis
    feeding_norm := normStr r.feeding_norm
    reviews := r.reviews
    url := normStr r.url
    parsed_date := normStr r.parsed_date }

/-- The dictionary literal of `parse_product`, one field per extractor. -/
def rawRecord (d : Doc) (url parsed_date : Str) : RawRecord :=
  { name := get_name d
    manufacturer := get_manufacturer d
    price := get_price d
    category := get_category d
    images := get_images d
    weight := get_weight d
    description := get_tab_content d "#product-des"
    composition := get_tab_content d "#product-composition"
    analysis := get_tab_content d "#product-analysis"
    feeding_norm := get_tab_content d "#product-feeding_rates"
    reviews := get_reviews d
    url := url
    parsed_date := parsed_date }

/-- A successfully fetched and parsed product page assembled into a record:
the dictionary literal followed by the normalisation loop. -/
def buildRecord (d : Doc) (url parsed_date : Str) : Record :=
  normalize (rawRecord d url parsed_date)

/-- One `.grid-product` entry of the sale listing page, with the result of
its `.title a` sub-query. -/
structure ListingItem where
  titleLink : Option Elem
deriving DecidableEq

/-- The parsed sale listing page: its `.grid-product` entries in document
order. -/
structure ListingDoc where
  products : List ListingItem
deriving DecidableEq

/-- The constant `self.base_url`. -/
def base_url : Str := str "https://zoomagia.ru"

/-- The URL contributed by one listing item: `None` when the item has no
title anchor or the anchor's `href` is missing or empty (Python truthiness
of `link.get('href')`); otherwise the `href` itself when it starts with
`http`, else `base_url + href`. -/
def itemLink (it : ListingItem) : Option Str :=
  match it.titleLink with
  | some link =>
    match link.attr "href" with
    | some href =>
      if href ≠ [] then
        some (if (str "http").isPrefixOf href then href else base_url ++ href)
      else none
    | none => none
  | none => none

/-- A loop body that appends the selected value when the selection
succeeds: the shape shared by the link loop of `get_product_links` and
the batch loop of `run_parser`. -/
def appendOpt {α β : Type} (f : α → Option β) (acc : List β) (x : α) : List β :=
  match f x with
  | some y => acc ++ [y]
  | none => acc

/-- Embedding of the selection loop of `get_product_links` over an already
fetched listing page. -/
def get_product_links (d : ListingDoc) : List Str :=
  d.products.foldl (appendOpt itemLink) []

/-- The outside world as the parser sees it: the result of fetching the
sale page and the result of fetching each product URL.  `none` stands for
a raised fetch error (non-2xx status, timeout, transport error). -/
structure World where
  listing : Option ListingDoc
  page : Str → Option Doc

/-- Embedding of `get_product_links` including its `try/except`: a fetch
failure of the listing page is logged and yields the empty link list. -/
def productLinksOf (w : World) : List Str :=
  match w.listing with
  | some d => get_product_links d
  | none => []

/-- Embedding of `parse_product`: the whole body runs under `try/except`,
so a fetch failure (or any error raised while extracting) is converted to
`None`; on success the assembled record is returned. -/
def parse_product (w : World) (parsed_date : Str) (url : Str) : Option Record :=
  match w.page url with
  | some d => some (buildRecord d url parsed_date)
  | none => none

/-- The accumulation loop of `run_parser`: each link is parsed in order and
successful records are appended to the batch. -/
def runBatch (w : World) (parsed_date : Str) : List Record :=
  (productLinksOf w).foldl (appendOpt (parse_product w parsed_date)) []

/-- The observable outcome of one `run_parser` invocation: the accumulated
batch, the data handed to `save_to_json` (`none` when it was not called),
and whether the no-products warning was logged. -/
structure RunResult where
  batch : List Record
  saved : Option (List Record)
  warned : Bool
deriving DecidableEq

/-- Embedding of `run_parser`: process every discovered link, then persist
the batch exactly when it is non-empty, otherwise log a warning. -/
def runParserModel (w : World) (parsed_date : Str) : RunResult :=
  let products_data := runBatch w parsed_date
  if products_data.isEmpty then
    ⟨products_data, none, true⟩
  else
    ⟨products_data, some products_data, false⟩

/-- Declarative description of the thumbnail loop of `_get_images`: the
`src` values of the thumbnails in document order, keeping a value only
when it is non-empty and not already seen. -/
def thumbDedup (seen : List Str) : List Elem → List Str
  | [] => []
  | t :: ts =>
    match t.attr "src" with
    | some src =>
      if src ≠ [] ∧ src ∉ seen then src :: thumbDedup (seen ++ [src]) ts
      else thumbDedup seen ts
    | none => thumbDedup seen ts

/-- All fields of a record except `parsed_date`, for the determinism
statement. -/
def recordCore (r : Record) :=
  (r.name, r.manufacturer, r.price, r.category, r.images, r.weight,
   r.description, r.composition, r.analysis, r.feeding_norm, r.reviews, r.url)

/-- A product page on which every selector query comes back empty. -/
def docBase : Doc :=
  { title := none
    h1 := none
    metaKeywords := none
    brandLink := none
    priceBlock := none
    breadcrumbs := []
    mainImage := none
    thumbImgs := []
    packingItems := []
    tabs := []
    commentItems := [] }

/-- The struck-through price element of the end-to-end pricing example. -/
def c1Old : Elem := ⟨[str "2000 ₽"], []⟩

/-- The discount badge of the pricing example. -/
def c1Badge : Elem := ⟨[str "-25%"], []⟩

/-- A pricing block whose full text is the concatenation
`2000 ₽1500 ₽` of the old and the current price. -/
def c1Block : PriceBlock := ⟨[str "2000 ₽", str "1500 ₽"], some c1Old, some c1Badge⟩

/-- A product page carrying the example pricing block. -/
def c1Doc : Doc := { docBase with priceBlock := some c1Block }

/-- A title element whose text contains no en dash. -/
def c2Title : Elem := ⟨[str "Foo"], []⟩

/-- A first-heading element with text distinct from the title. -/
def c2H1 : Elem := ⟨[str "Bar"], []⟩

/-- A page with both a dash-free title and an `h1`. -/
def c2Doc : Doc :=
  { docBase with
    title := some c2Title
    h1 := some c2H1 }

/-- A title element whose text carries an en dash and a suffix. -/
def w2Title : Elem := ⟨[str "Корм для кошек – купить"], []⟩

/-- A page whose title carries an en dash. -/
def w2Doc : Doc := { docBase with title := some w2Title }

/-- A big-image element that has a `src` attribute, but an empty one. -/
def c4Main : Elem := ⟨[], [("src", [])]⟩

/-- A page whose big image has an empty `src` and that has one thumbnail. -/
def c4Doc : Doc :=
  { docBase with
    mainImage := some c4Main
    thumbImgs := [⟨[], [("src", str "a.jpg")]⟩] }

/-- A big-image element with a non-empty `src`. -/
def w4Main : Elem := ⟨[], [("src", str "m.jpg")]⟩

/-- A page whose first thumbnail duplicates the big image's `src`. -/
def w4Doc : Doc :=
  { docBase with
    mainImage := some w4Main
    thumbImgs := [⟨[], [("src", str "m.jpg")]⟩, ⟨[], [("src", str "t.jpg")]⟩] }

/-- A title anchor that has an `href` attribute, but an empty one. -/
def c5Link : Elem := ⟨[], [("href", [])]⟩

/-- A listing page with one item whose anchor's `href` is empty. -/
def c5Listing : ListingDoc := ⟨[⟨some c5Link⟩]⟩

/-- A title anchor with a relative `href`. -/
def w5Link : Elem := ⟨[], [("href", str "/shop/item1")]⟩

/-- A listing page with one item carrying a relative link. -/
def w5Listing : ListingDoc := ⟨[⟨some w5Link⟩]⟩

/-- A world in which even the listing-page fetch fails. -/
def w6World : World := ⟨none, fun _ => none⟩

/-- A listing with a single relative product link. -/
def w6Listing : ListingDoc := ⟨[⟨some ⟨[], [("href", str "/p1")]⟩⟩]⟩

/-- A world with one discoverable product whose page fetch succeeds. -/
def w6bWorld : World := ⟨some w6Listing, fun _ => some docBase⟩

/-- A listing with one good and one bad product link. -/
def w7Listing : ListingDoc :=
  ⟨[⟨some ⟨[], [("href", str "/ok")]⟩⟩, ⟨some ⟨[], [("href", str "/bad")]⟩⟩]⟩

/-- A world in which fetching the second product raises. -/
def w7World : World :=
  ⟨some w7Listing, fun u => if u = str "https://zoomagia.ru/ok" then some docBase else none⟩

/-- A pricing block with neither a struck-through price nor a badge. -/
def c9Block : PriceBlock := ⟨[str "1500 ₽"], none, none⟩

/-- A page whose pricing block lacks both optional sub-elements. -/
def c9Doc : Doc := { docBase with priceBlock := some c9Block }

/-- A page with one whitespace-only comment item and one whitespace-only
packing item. -/
def w10Doc : Doc :=
  { docBase with
    commentItems := [⟨[str "  "], []⟩]
    packingItems := [⟨[str "  "], []⟩] }

/-- An append-accumulating fold over an option-producing selection is a
`filterMap`: the shape shared by the link loop and the batch loop. -/
theorem foldl_appendOpt {α β : Type} (f : α → Option β) :
    ∀ (l : List α) (acc : List β),
      l.foldl (appendOpt f) acc = acc ++ l.filterMap f := by
  intro l
  induction l with
  | nil => intro acc; simp
  | cons x l ih =>
    intro acc
    cases hx : f x with
    | none => simp [List.foldl_cons, appendOpt, hx, ih]
    | some y => simp [List.foldl_cons, appendOpt, hx, ih]

/-- Link extraction is the filterMap of `itemLink` over the listing items. -/
theorem get_product_links_eq (d : ListingDoc) :
    get_product_links d = d.products.filterMap itemLink :=
  (foldl_appendOpt itemLink d.products []).trans (List.nil_append _)

/-- The batch loop is the filterMap of `parse_product` over the links. -/
theorem runBatch_eq (w : World) (ts : Str) :
    runBatch w ts = (productLinksOf w).filterMap (parse_product w ts) :=
  (foldl_appendOpt (parse_product w ts) (productLinksOf w) []).trans (List.nil_append _)

/-- The review loop maps every comment item to a one-field record. -/
theorem get_reviews_go :
    ∀ (l : List Elem) (acc : List Review),
      l.foldl (fun acc e => acc ++ [⟨e.getTextStripped⟩]) acc
        = acc ++ l.map (fun e => ⟨e.getTextStripped⟩) := by
  intro l
  induction l with
  | nil => intro acc; simp
  | cons e l ih => intro acc; simp [List.foldl_cons, ih]

/-- Review extraction keeps every comment item, in order. -/
theorem get_reviews_eq (d : Doc) :
    get_reviews d = d.commentItems.map (fun e => (⟨e.getTextStripped⟩ : Review)) :=
  (get_reviews_go d.commentItems []).trans (List.nil_append _)

/-- The weight loop keeps exactly the non-empty stripped texts, in order. -/
theorem get_weight_go :
    ∀ (l : List Elem) (acc : List Str),
      l.foldl weightStep acc
        = acc ++ (l.map (fun e => trim e.text)).filter (fun s => !s.isEmpty) := by
  intro l
  induction l with
  | nil => intro acc; simp
  | cons e l ih =>
    intro acc
    by_cases h : trim e.text = []
    · have hs : weightStep acc e = acc := by simp [weightStep, h]
      rw [List.foldl_cons, hs, ih]
      simp [List.filter_cons, h]
    · have hs : weightStep acc e = acc ++ [trim e.text] := by simp [weightStep, h]
      rw [List.foldl_cons, hs, ih]
      simp [List.filter_cons, h]

/-- Weight extraction drops the whitespace-only packing items. -/
theorem get_weight_eq (d : Doc) :
    get_weight d = (d.packingItems.map (fun e => trim e.text)).filter (fun s => !s.isEmpty) :=
  (get_weight_go d.packingItems []).trans (List.nil_append _)

/-- The thumbnail loop of `_get_images` appends exactly the deduplicated
`src` sequence described by `thumbDedup`. -/
theorem thumb_go :
    ∀ (ts : List Elem) (acc : List Str),
      ts.foldl imgStep acc = acc ++ thumbDedup acc ts := by
  intro ts
  induction ts with
  | nil => intro acc; simp [thumbDedup]
  | cons t ts ih =>
    intro acc
    cases ht : t.attr "src" with
    | none => simp [List.foldl_cons, imgStep, thumbDedup, ht, ih]
    | some src =>
      by_cases hc : src ≠ [] ∧ src ∉ acc
      · simp only [List.foldl_cons, imgStep, thumbDedup, ht, if_pos hc, ih]
        simp
      · simp [List.foldl_cons, imgStep, thumbDedup, ht, if_neg hc, ih]

/-- The deduplicated thumbnail sequence stays duplicate-free relative to
everything already seen. -/
theorem thumbDedup_nodup :
    ∀ (ts : List Elem) (seen : List Str), seen.Nodup →
      (seen ++ thumbDedup seen ts).Nodup := by
  intro ts
  induction ts with
  | nil => intro seen h; simpa [thumbDedup] using h
  | cons t ts ih =>
    intro seen h
    cases ht : t.attr "src" with
    | none => simpa [thumbDedup, ht] using ih seen h
    | some src =>
      by_cases hc : src ≠ [] ∧ src ∉ seen
      · have h2 : (seen ++ [src]).Nodup := by
          simp [List.nodup_append, h, hc.2]
        have := ih (seen ++ [src]) h2
        simpa [thumbDedup, ht, if_pos hc, List.append_assoc] using this
      · simpa [thumbDedup, ht, if_neg hc] using ih seen h

/-- The initial image list is at most a singleton, hence duplicate-free. -/
theorem mainImageList_nodup (d : Doc) : (mainImageList d).Nodup := by
  cases hm : d.mainImage with
  | none => simp [mainImageList, hm]
  | some img =>
    cases ha : img.attr "src" with
    | none => simp [mainImageList, hm, ha]
    | some src =>
      by_cases hs : src = [] <;> simp [mainImageList, hm, ha, hs]

/-- A filterMap where the selection succeeds on every element is the map
of the forced values. -/
theorem filterMap_eq_map_getD {α β : Type} (f : α → Option β) (dflt : β) :
    ∀ (l : List α), (∀ x ∈ l, (f x).isSome) →
      l.filterMap f = l.map (fun x => (f x).getD dflt) := by
  intro l
  induction l with
  | nil => intro _; simp
  | cons x l ih =>
    intro h
    have hx : (f x).isSome := h x (List.mem_cons_self x l)
    obtain ⟨y, hy⟩ := Option.isSome_iff_exists.mp hx
    have ht := ih (fun z hz => h z (List.mem_cons_of_mem x hz))
    simp [List.filterMap_cons, hy, ht]

/-- C1: inside a present pricing block, `old_price` is the stripped text of
the struck-through element when that element exists, `current_price` is
then the stripped block text with the old-price string and every ruble
sign removed and stripped again, and `discount` is the stripped text of
the discount badge when that element exists. -/
theorem price_extraction_c1 (d : Doc) (pb : PriceBlock)
    (hb : d.priceBlock = some pb) :
    (∀ op, pb.priceDel = some op →
      (get_price d).old_price = trim op.text ∧
      (get_price d).current_price =
        trim (replaceAll (replaceAll (trim pb.text) (trim op.text) []) ruble []))
    ∧ (∀ db, pb.discountBadge = some db → (get_price d).discount = trim db.text) := by
  constructor
  · intro op hop
    constructor
    · simp [get_price, hb, hop]
    · simp [get_price, hb, hop]
  · intro db hdb
    simp [get_price, hb, hdb]

/-- C1 witness: on the spec's end-to-end example (old price `2000 ₽`,
block text `2000 ₽1500 ₽`), `old_price` is `2000 ₽`, `current_price` is
`1500` and `discount` is the badge text. -/
theorem price_extraction_c1_witness :
    (get_price c1Doc).old_price = str "2000 ₽" ∧
    (get_price c1Doc).current_price = str "1500" ∧
    (get_price c1Doc).discount = str "-25%" := by
  obtain ⟨hop, hdb⟩ := price_extraction_c1 c1Doc c1Block rfl
  obtain ⟨h1, h2⟩ := hop c1Old rfl
  exact ⟨h1.trans (by decide), h2.trans (by decide), (hdb c1Badge rfl).trans (by decide)⟩

/-- C2 counterexample: on a page whose title is present but carries no en
dash (here `Foo`) and whose first heading is `Bar`, the code returns the
heading text, not the title text as the claim states. -/
theorem name_extraction_c2_cex :
    c2Doc.title = some c2Title ∧
    trim (Elem.text c2Title) = str "Foo" ∧
    get_name c2Doc = str "Bar" ∧
    str "Bar" ≠ str "Foo" := by decide

/-- C2 (amended): the name is the title's pre-dash portion, trimmed, only
when a title containing an en dash is present; otherwise (no title, or a
title without an en dash) the code falls back to the first heading's
trimmed text, and returns the empty string when that is also missing. -/
theorem name_extraction_c2 (d : Doc) :
    (∀ t, d.title = some t → (trim t.text).contains endash = true →
      get_name d = trim ((splitChar endash (trim t.text)).headD []))
  ∧ (∀ t, d.title = some t → (trim t.text).contains endash = false →
      (∀ e, d.h1 = some e → get_name d = trim e.text) ∧
      (d.h1 = none → get_name d = []))
  ∧ (d.title = none →
      (∀ e, d.h1 = some e → get_name d = trim e.text) ∧
      (d.h1 = none → get_name d = [])) := by
  refine ⟨?_, ?_, ?_⟩
  · intro t ht hdash
    have hm : endash ∈ trim t.text := by simpa using hdash
    simp [get_name, ht, hm]
  · intro t ht hdash
    have hm : endash ∉ trim t.text := by simpa using hdash
    constructor
    · intro e he; simp [get_name, ht, he, hm]
    · intro he; simp [get_name, ht, he, hm]
  · intro ht
    constructor
    · intro e he; simp [get_name, ht, he]
    · intro he; simp [get_name, ht, he]

/-- C2 witness: a dash-carrying title keeps only its pre-dash part; with a
dash-free title the heading text is returned. -/
theorem name_extraction_c2_witness :
    get_name w2Doc = str "Корм для кошек" ∧ get_name c2Doc = str "Bar" := by
  constructor
  · exact ((name_extraction_c2 w2Doc).1 w2Title rfl (by decide)).trans (by decide)
  · exact (((name_extraction_c2 c2Doc).2.1 c2Title rfl (by decide)).1 c2H1 rfl).trans
      (by decide)

/-- C3 counterexample: the normalisation loop does not trim; assembling a
record for the URL `" x "` (one non-whitespace character surrounded by
spaces) keeps the surrounding whitespace, contradicting the claim that
string fields are preserved with surrounding whitespace trimmed. -/
theorem normalization_c3_cex :
    (buildRecord docBase (str " x ") (str "2024")).url = some (str " x ") ∧
    some (str " x ") ≠ some (trim (str " x ")) := by decide

/-- C3 (amended): after assembly, every string-valued field whose value
strips to empty becomes absent, every other string-valued field is
preserved unchanged (the loop itself never trims, so the caller-supplied
`url` may keep surrounding whitespace), and the normalisation leaves the
list-valued fields and the nested price record untouched. -/
theorem normalization_c3 (r : RawRecord) :
    ((trim r.name = [] → (normalize r).name = none) ∧
      (trim r.name ≠ [] → (normalize r).name = some r.name))
  ∧ ((trim r.manufacturer = [] → (normalize r).manufacturer = none) ∧
      (trim r.manufacturer ≠ [] → (normalize r).manufacturer = some r.manufacturer))
  ∧ ((trim r.category = [] → (normalize r).category = none) ∧
      (trim r.category ≠ [] → (normalize r).category = some r.category))
  ∧ ((trim r.description = [] → (normalize r).description = none) ∧
      (trim r.description ≠ [] → (normalize r).description = some r.description))
  ∧ ((trim r.composition = [] → (normalize r).composition = none) ∧
      (trim r.composition ≠ [] → (normalize r).composition = some r.composition))
  ∧ ((trim r.analysis = [] → (normalize r).analysis = none) ∧
      (trim r.analysis ≠ [] → (normalize r).analysis = some r.analysis))
  ∧ ((trim r.feeding_norm = [] → (normalize r).feeding_norm = none) ∧
      (trim r.feeding_norm ≠ [] → (normalize r).feeding_norm = some r.feeding_norm))
  ∧ ((trim r.url = [] → (normalize r).url = none) ∧
      (trim r.url ≠ [] → (normalize r).url = some r.url))
  ∧ ((trim r.parsed_date = [] → (normalize r).parsed_date = none) ∧
      (trim r.parsed_date ≠ [] → (normalize r).parsed_date = some r.parsed_date))
  ∧ (normalize r).price = r.price
  ∧ (normalize r).images = r.images
  ∧ (normalize r).weight = r.weight
  ∧ (normalize r).reviews = r.reviews := by
  have hs : ∀ s : Str, (trim s = [] → normStr s = none) ∧
      (trim s ≠ [] → normStr s = some s) := by
    intro s
    constructor
    · intro h; simp [normStr, h]
    · intro h; simp [normStr, h]
  exact ⟨hs r.name, hs r.manufacturer, hs r.category, hs r.description,
    hs r.composition, hs r.analysis, hs r.feeding_norm, hs r.url,
    hs r.parsed_date, rfl, rfl, rfl, rfl⟩

/-- C3 witness: on an otherwise empty page, the empty extracted name is
normalised to absent, while the caller-supplied URL `" x "` is preserved
verbatim. -/
theorem normalization_c3_witness :
    (buildRecord docBase (str " x ") (str "2024")).name = none ∧
    (buildRecord docBase (str " x ") (str "2024")).url = some (str " x ") := by
  obtain ⟨hname, _, _, _, _, _, _, hurl, _⟩ :=
    normalization_c3 (rawRecord docBase (str " x ") (str "2024"))
  exact ⟨hname.1 (by decide), hurl.2 (by decide)⟩

/-- C4 counterexample: when the big-image element is present with a `src`
attribute whose value is empty, its `src` is not placed at index 0 (Python
truthiness skips it), contradicting the claim for that input. -/
theorem images_c4_cex :
    c4Doc.mainImage = some c4Main ∧
    Elem.attr c4Main "src" = some [] ∧
    get_images c4Doc = [str "a.jpg"] ∧
    (get_images c4Doc).head? ≠ some ([] : Str) := by decide

/-- C4 (amended): the image list is duplicate-free under exact string
equality; it is the big image's singleton followed by the thumbnail `src`
values in document order with empty and already-collected values skipped;
and whenever the big image is present with a non-empty `src`, that `src`
is at index 0. -/
theorem images_c4 (d : Doc) :
    (get_images d).Nodup
  ∧ get_images d = mainImageList d ++ thumbDedup (mainImageList d) d.thumbImgs
  ∧ (∀ img src, d.mainImage = some img → img.attr "src" = some src → src ≠ [] →
      (get_images d).head? = some src) := by
  have hchar : get_images d = mainImageList d ++ thumbDedup (mainImageList d) d.thumbImgs :=
    thumb_go d.thumbImgs (mainImageList d)
  refine ⟨?_, hchar, ?_⟩
  · rw [hchar]
    exact thumbDedup_nodup d.thumbImgs (mainImageList d) (mainImageList_nodup d)
  · intro img src him hsrc hne
    have hmain : mainImageList d = [src] := by simp [mainImageList, him, hsrc, hne]
    rw [hchar, hmain]
    rfl

/-- C4 witness: with a non-empty big-image `src` and thumbnails containing
a duplicate of it, the list is duplicate-free and keeps the big image at
index 0. -/
theorem images_c4_witness :
    (get_images w4Doc).Nodup ∧
    (get_images w4Doc).head? = some (str "m.jpg") ∧
    get_images w4Doc = [str "m.jpg", str "t.jpg"] := by
  obtain ⟨hnd, hchar, hhead⟩ := images_c4 w4Doc
  exact ⟨hnd, hhead w4Main (str "m.jpg") rfl (by decide) (by decide), by decide⟩

/-- C5 counterexample: a listing item whose title anchor carries an `href`
attribute with an empty value is skipped (Python truthiness), so a listing
of one such item yields zero URLs, not one. -/
theorem links_c5_cex :
    c5Listing.products = [⟨some c5Link⟩] ∧
    Elem.attr c5Link "href" = some [] ∧
    c5Listing.products.length = 1 ∧
    get_product_links c5Listing = [] := by decide

/-- C5 (amended): when every listing item has a title anchor with a
non-empty `href`, link extraction returns one URL per item in document
order, keeping an `href` that starts with `http` verbatim and prefixing
the base origin otherwise. -/
theorem links_c5 (d : ListingDoc)
    (h : ∀ it ∈ d.products, ∃ link href, it.titleLink = some link ∧
      Elem.attr link "href" = some href ∧ href ≠ []) :
    get_product_links d = d.products.map (fun it => (itemLink it).getD [])
  ∧ (∀ (it : ListingItem) (link : Elem) (href : Str), it.titleLink = some link →
      Elem.attr link "href" = some href → href ≠ [] →
      itemLink it =
        some (if (str "http").isPrefixOf href then href else base_url ++ href)) := by
  constructor
  · rw [get_product_links_eq]
    apply filterMap_eq_map_getD
    intro it hit
    obtain ⟨link, href, h1, h2, h3⟩ := h it hit
    simp [itemLink, h1, h2, h3]
  · intro it link href h1 h2 h3
    simp [itemLink, h1, h2, h3]

/-- C5 witness: a one-item listing with the relative link `/shop/item1`
yields exactly one URL, resolved against the base origin. -/
theorem links_c5_witness :
    get_product_links w5Listing = [str "https://zoomagia.ru/shop/item1"] := by
  have hp : ∀ it ∈ w5Listing.products, ∃ link href, it.titleLink = some link ∧
      Elem.attr link "href" = some href ∧ href ≠ [] := by
    intro it hit
    rw [show w5Listing.products = [⟨some w5Link⟩] from rfl, List.mem_singleton] at hit
    subst hit
    exact ⟨w5Link, str "/shop/item1", rfl, by decide, by decide⟩
  exact ((links_c5 w5Listing hp).1).trans (by decide)

/-- C6: the batch is handed to persistence exactly when it is non-empty;
an empty batch (in particular when no links were discovered) produces the
warning and no write. -/
theorem run_persistence_c6 (w : World) (ts : Str) :
    ((runParserModel w ts).saved = some (runBatch w ts) ↔ runBatch w ts ≠ [])
  ∧ ((runParserModel w ts).saved = none ↔ runBatch w ts = [])
  ∧ (runBatch w ts = [] →
      (runParserModel w ts).warned = true ∧ (runParserModel w ts).saved = none)
  ∧ (runBatch w ts ≠ [] → (runParserModel w ts).warned = false)
  ∧ (productLinksOf w = [] →
      (runParserModel w ts).saved = none ∧ (runParserModel w ts).warned = true) := by
  by_cases hb : runBatch w ts = []
  · have hlinks : (runParserModel w ts).saved = none ∧ (runParserModel w ts).warned = true := by
      simp [runParserModel, hb]
    refine ⟨?_, ?_, ?_, ?_, ?_⟩
    · simp [runParserModel, hb]
    · simp [runParserModel, hb]
    · intro _; exact ⟨hlinks.2, hlinks.1⟩
    · intro hne; exact absurd hb hne
    · intro _; exact hlinks
  · have hne : (runParserModel w ts) = ⟨runBatch w ts, some (runBatch w ts), false⟩ := by
      simp [runParserModel, List.isEmpty_iff, hb]
    refine ⟨?_, ?_, ?_, ?_, ?_⟩
    · rw [hne]; simp [hb]
    · rw [hne]; simp [hb]
    · intro h; exact absurd h hb
    · intro _; rw [hne]
    · intro hl
      exfalso
      apply hb
      simp [runBatch, hl]

/-- C6 witness: with a failed listing fetch, nothing is saved and the
warning fires; with one successful product, the batch is saved. -/
theorem run_persistence_c6_witness :
    (runParserModel w6World (str "2024")).saved = none ∧
    (runParserModel w6World (str "2024")).warned = true ∧
    (runParserModel w6bWorld (str "2024")).saved = some (runBatch w6bWorld (str "2024")) := by
  have h := (run_persistence_c6 w6World (str "2024")).2.2.2.2 rfl
  exact ⟨h.1, h.2, ((run_persistence_c6 w6bWorld (str "2024")).1).mpr (by decide)⟩

/-- C7: a failed product fetch makes `parse_product` return an absent
result rather than an error; the batch is the filterMap of `parse_product`
over the discovered links (successful records in listing order); and
removing one failing link from anywhere in the link list leaves the batch
unchanged, so one failing product does not affect the others. -/
theorem fault_isolation_c7 (w : World) (ts : Str) :
    (∀ url, w.page url = none → parse_product w ts url = none)
  ∧ (∀ url d, w.page url = some d →
      parse_product w ts url = some (buildRecord d url ts))
  ∧ runBatch w ts = (productLinksOf w).filterMap (parse_product w ts)
  ∧ (∀ (l1 l2 : List Str) (u : Str), parse_product w ts u = none →
      (l1 ++ u :: l2).filterMap (parse_product w ts)
        = (l1 ++ l2).filterMap (parse_product w ts)) := by
  refine ⟨?_, ?_, runBatch_eq w ts, ?_⟩
  · intro url h; simp [parse_product, h]
  · intro url d h; simp [parse_product, h]
  · intro l1 l2 u h
    simp [List.filterMap_append, List.filterMap_cons, h]

/-- C7 witness: in a world where the second product link's fetch fails,
that product is dropped and the batch holds exactly the first product's
record. -/
theorem fault_isolation_c7_witness :
    parse_product w7World (str "2024") (str "https://zoomagia.ru/bad") = none ∧
    runBatch w7World (str "2024") =
      [buildRecord docBase (str "https://zoomagia.ru/ok") (str "2024")] := by
  have h := fault_isolation_c7 w7World (str "2024")
  exact ⟨h.1 (str "https://zoomagia.ru/bad") (by decide), (h.2.2.1).trans (by decide)⟩

/-- C8: extraction is deterministic — assembling the same parsed document
twice, at possibly different timestamps, yields records that agree on
every field except `parsed_date`. -/
theorem determinism_c8 (d : Doc) (url ts1 ts2 : Str) :
    recordCore (buildRecord d url ts1) = recordCore (buildRecord d url ts2) := rfl

/-- C9: with no pricing block, the price field of the assembled record is
the nested record with all three sub-fields the empty string (never an
absent value, since the normalisation loop skips non-string values); and
inside an existing block a missing struck-through element or a missing
badge likewise leaves the empty-string default in place. -/
theorem price_defaults_c9 (d : Doc) (url ts : Str) :
    (d.priceBlock = none →
      get_price d = ⟨[], [], []⟩ ∧ (buildRecord d url ts).price = ⟨[], [], []⟩)
  ∧ (∀ pb, d.priceBlock = some pb → pb.priceDel = none →
      (get_price d).old_price = [] ∧ (get_price d).current_price = [])
  ∧ (∀ pb, d.priceBlock = some pb → pb.discountBadge = none →
      (get_price d).discount = [])
  ∧ (buildRecord d url ts).price = get_price d := by
  have hp : (buildRecord d url ts).price = get_price d := rfl
  refine ⟨?_, ?_, ?_, hp⟩
  · intro h
    have hg : get_price d = ⟨[], [], []⟩ := by simp [get_price, h]
    exact ⟨hg, hp.trans hg⟩
  · intro pb hb hdel
    constructor
    · simp [get_price, hb, hdel]
    · simp [get_price, hb, hdel]
  · intro pb hb hbadge
    simp [get_price, hb, hbadge]

/-- C9 witness: an otherwise empty page gets the all-empty price record,
and a block lacking both optional sub-elements keeps the empty-string
defaults for `old_price` and `discount`. -/
theorem price_defaults_c9_witness :
    get_price docBase = ⟨[], [], []⟩ ∧
    (buildRecord docBase (str "u") (str "2024")).price = ⟨[], [], []⟩ ∧
    (get_price c9Doc).old_price = [] ∧
    (get_price c9Doc).discount = [] := by
  have h := (price_defaults_c9 docBase (str "u") (str "2024")).1 rfl
  have h9 := price_defaults_c9 c9Doc (str "u") (str "2024")
  exact ⟨h.1, h.2, (h9.2.1 c9Block rfl rfl).1, h9.2.2.1 c9Block rfl rfl⟩

/-- C10: reviews contribute one record per comment item in document order,
holding the item's stripped visible text, and items with empty text are
kept (an empty-text review record can appear), whereas the weight
extractor drops whitespace-only items. -/
theorem reviews_c10 (d : Doc) :
    get_reviews d = d.commentItems.map (fun e => (⟨e.getTextStripped⟩ : Review))
  ∧ (get_reviews d).length = d.commentItems.length
  ∧ (∀ e ∈ d.commentItems, e.getTextStripped = [] →
      (⟨[]⟩ : Review) ∈ get_reviews d)
  ∧ get_weight d =
      (d.packingItems.map (fun e => trim e.text)).filter (fun s => !s.isEmpty) := by
  have hr := get_reviews_eq d
  refine ⟨hr, by rw [hr]; simp, ?_, get_weight_eq d⟩
  intro e he hemp
  rw [hr]
  exact List.mem_map.mpr ⟨e, he, by simp [hemp]⟩

/-- C10 witness: a whitespace-only comment item yields a review record
with empty text, while the analogous whitespace-only packing item is
dropped from the weight list. -/
theorem reviews_c10_witness :
    get_reviews w10Doc = [⟨[]⟩] ∧
    (⟨[]⟩ : Review) ∈ get_reviews w10Doc ∧
    get_weight w10Doc = [] := by
  have h := reviews_c10 w10Doc
  refine ⟨h.1.trans (by decide), ?_, (h.2.2.2).trans (by decide)⟩
  exact h.2.2.1 ⟨[str "  "], []⟩ (by decide) (by decide)

end Zoomagia
